import Mathlib

/-!
Shallow embedding of the mcp-central-agent connection-lifecycle core:
the downstream connection manager (`LocalClient`, src/local-client.ts),
the control channel (`AgentTunnel`, tunnel source file) and the
orchestrator (`McpCentralAgent`, agent source file).  Machine states are
explicit records, the asynchronous bodies of `connect()` are split at
their await points into a labelled transition system, and every outbound
control-channel send is recorded as a message value.
-/

namespace McpCentralAgent

/-- Opaque structured values (tool-call arguments and results, input
schemas).  The core never inspects them, only passes them through. -/
inductive Value where
  | null : Value
  | str (s : String) : Value
  | num (n : Int) : Value
  | boolean (b : Bool) : Value
  | arr (xs : List Value) : Value
  | obj (fields : List (String × Value)) : Value
deriving Repr

/-- `LocalClientStatus` from src/local-client.ts. -/
inductive LocalClientStatus where
  | disconnected
  | connecting
  | connected
  | error
deriving DecidableEq, Repr

/-- String form of a status, as interpolated into error messages. -/
def LocalClientStatus.text : LocalClientStatus → String
  | .disconnected => "disconnected"
  | .connecting => "connecting"
  | .connected => "connected"
  | .error => "error"

/-- The transport kinds of `EndpointConfig.transport`. -/
inductive TransportKind where
  | stdio
  | streamableHttp
  | sse
deriving DecidableEq, Repr

/-- `EndpointConfig` from src/local-client.ts (records are modelled with
association lists for `env`/`headers`). -/
structure EndpointConfig where
  id : String
  name : String
  «namespace» : String
  transport : TransportKind
  url : Option String
  command : Option String
  args : List String
  env : List (String × String)
  headers : List (String × String)
  isEnabled : Bool
deriving DecidableEq, Repr

/-- A discovered tool descriptor.  The MCP `Tool` type carries
`name`/`description`/`inputSchema` plus further fields (`title`,
`outputSchema`, `annotations`, ...); the extras are modelled by one
opaque field so that their (non-)propagation is observable. -/
structure Tool where
  name : String
  description : Option String
  inputSchema : Value
  extraFields : List (String × Value)
deriving Repr

/-- The trimmed tool shape sent by `AgentTunnel.announceTools`. -/
structure TrimmedTool where
  name : String
  description : Option String
  inputSchema : Value
deriving Repr

/-- One outbound control-channel send (an `AgentTunnel` emit call). -/
inductive OutMsg where
  | toolsAnnounce (endpointId : String) (tools : List TrimmedTool)
  | toolResult (callId : String) (result : Value)
  | toolError (callId : String) (message : String)
  | statusUpdate (endpointId : String) (status : LocalClientStatus)
      (error : Option String)
deriving Repr

/-- A callback fired by a `LocalClient` (`LocalClientCallbacks`). -/
inductive CbEvent where
  | statusChanged (status : LocalClientStatus) (error : Option String)
  | toolsChanged (tools : List Tool)
deriving Repr

/-! ## LocalClient as a labelled transition system

`connect()` is an async method; its body is cut at the await points
(`client.connect(transport)` / `_connectHttp` resolving, then
`client.listTools()` resolving).  The program counter of an in-flight
`connect()` body is part of the state. -/

/-- Program counter of the in-flight `connect()` body. -/
inductive ConnPC where
  | idle
  | awaitingTransport
  | awaitingListTools
deriving DecidableEq, Repr

/-- `RECONNECT_DELAYS` from src/local-client.ts. -/
def RECONNECT_DELAYS : List Nat := [1000, 2000, 5000, 10000, 30000]

/-- `MAX_RECONNECT_DELAY` from src/local-client.ts. -/
def MAX_RECONNECT_DELAY : Nat := 60000

/-- The delay picked by `_scheduleReconnect` for a given value of
`_reconnectAttempt`:
`RECONNECT_DELAYS[Math.min(attempt, RECONNECT_DELAYS.length - 1)] ?? MAX_RECONNECT_DELAY`. -/
def reconnectDelayFor (attempt : Nat) : Nat :=
  (RECONNECT_DELAYS.get? (min attempt (RECONNECT_DELAYS.length - 1))).getD
    MAX_RECONNECT_DELAY

/-- Mutable state of one `LocalClient`.  `hasClient` models
`_client !== null`; `reconnectTimer` holds the delay of a pending timer. -/
structure LCState where
  status : LocalClientStatus
  tools : List Tool
  hasClient : Bool
  destroyed : Bool
  connecting : Bool
  reconnectAttempt : Nat
  reconnectTimer : Option Nat
  pc : ConnPC
  handlersArmed : Bool
deriving Repr

/-- Field initialisers of `LocalClient`. -/
def LCState.init : LCState :=
  { status := .disconnected
    tools := []
    hasClient := false
    destroyed := false
    connecting := false
    reconnectAttempt := 0
    reconnectTimer := none
    pc := .idle
    handlersArmed := false }

/-- Events driving one `LocalClient`: external calls, resolutions of the
awaited promises inside `connect()`, the reconnect timer firing, and the
transport `onerror`/`onclose` observers firing. -/
inductive LCEvent where
  | connectCall
  | transportOk
  | transportErr (msg : String)
  | listToolsOk (tools : List Tool)
  | listToolsErr (msg : String)
  | disconnectCall
  | timerFire
  | transportClosed (errMsg : Option String)
deriving Repr

/-- `_setStatus`: store the status and invoke `onStatusChanged`. -/
def setStatus (s : LCState) (st : LocalClientStatus) (err : Option String) :
    LCState × List CbEvent :=
  ({ s with status := st }, [.statusChanged st err])

/-- `_scheduleReconnect`: no-op when destroyed; otherwise pick the delay
from the schedule, bump `_reconnectAttempt`, and arm the timer. -/
def scheduleReconnect (s : LCState) : LCState :=
  if s.destroyed then s
  else
    { s with
      reconnectTimer := some (reconnectDelayFor s.reconnectAttempt)
      reconnectAttempt := s.reconnectAttempt + 1 }

/-- Body of `connect()` up to its first await: the re-entrancy /
destroyed guard, then `_connecting = true` and status `connecting`. -/
def connectEntry (s : LCState) : LCState × List CbEvent :=
  if s.destroyed || s.connecting then (s, [])
  else
    let (s1, out) := setStatus { s with connecting := true } .connecting none
    ({ s1 with pc := .awaitingTransport }, out)

/-- The `catch` block of `connect()`: set status `error` with the failure
message, then schedule a reconnect unless destroyed; the `finally` block
clears `_connecting`. -/
def connectCatch (s : LCState) (msg : String) : LCState × List CbEvent :=
  let (s1, out) := setStatus s .error (some msg)
  let s2 := if s1.destroyed then s1 else scheduleReconnect s1
  ({ s2 with connecting := false, pc := .idle }, out)

/-- One transition of the `LocalClient` state machine, returning the new
state and the callbacks fired during it. -/
def lcStep (s : LCState) : LCEvent → LCState × List CbEvent
  | .connectCall => connectEntry s
  | .transportOk =>
      if s.pc = .awaitingTransport then
        ({ s with hasClient := true, reconnectAttempt := 0,
                  pc := .awaitingListTools }, [])
      else (s, [])
  | .transportErr msg =>
      if s.pc = .awaitingTransport then connectCatch s msg else (s, [])
  | .listToolsOk ts =>
      if s.pc = .awaitingListTools then
        let (s1, out) := setStatus { s with tools := ts } .connected none
        ({ s1 with handlersArmed := true, connecting := false, pc := .idle },
         out ++ [.toolsChanged ts])
      else (s, [])
  | .listToolsErr msg =>
      if s.pc = .awaitingListTools then connectCatch s msg else (s, [])
  | .disconnectCall =>
      let s1 := { s with destroyed := true, reconnectTimer := none,
                         hasClient := false }
      setStatus s1 .disconnected none
  | .timerFire =>
      match s.reconnectTimer with
      | none => (s, [])
      | some _ => connectEntry { s with reconnectTimer := none }
  | .transportClosed errMsg =>
      if s.handlersArmed && !s.destroyed && s.status = .connected then
        let msg := errMsg.getD "Transport closed unexpectedly"
        let (s1, out) := setStatus { s with tools := [],
                                            handlersArmed := false } .error
          (some msg)
        (scheduleReconnect s1, out)
      else (s, [])

/-- Run a list of events from a state, collecting all callbacks. -/
def lcRun (s : LCState) : List LCEvent → LCState × List CbEvent
  | [] => (s, [])
  | e :: es =>
      let (s1, out1) := lcStep s e
      let (s2, out2) := lcRun s1 es
      (s2, out1 ++ out2)

/-- `callTool(name, args)`: throws the not-connected error when
`_client` is null, otherwise forwards the downstream outcome. -/
def callTool (endpointId : String) (s : LCState)
    (downstream : Except String Value) : Except String Value :=
  if s.hasClient then downstream
  else .error ("LocalClient for endpoint " ++ endpointId ++
    " is not connected")

/-- The state reached from a fresh `LocalClient` by a trace of events. -/
def lcReach (tr : List LCEvent) : LCState :=
  (lcRun LCState.init tr).1

/-- Invariant tying the in-flight `connect()` body to the rest of the
state: while the body is between awaits, `_connecting` is set, the
status cannot be `connected`, and once the transport stage succeeded the
attempt counter has been reset. -/
def LCInv (s : LCState) : Prop :=
  s.pc ≠ ConnPC.idle →
    s.connecting = true ∧ s.status ≠ .connected ∧
      (s.pc = ConnPC.awaitingListTools → s.reconnectAttempt = 0)

/-! ## Orchestrator: the endpoint-id → LocalClient map

`McpCentralAgent._clients` is a JS `Map` (insertion-ordered); it is
modelled as an association list keyed by endpoint id.  The map-shape
handlers (`_syncEndpoints`, `_addEndpoint`, `_removeEndpoint`,
`_toggleEndpoint`, `_updateEndpoint`, `_refreshEndpoint`) are translated
directly; handlers whose claims concern outbound messages also return
the `AgentTunnel` sends they perform. -/

/-- The `_clients` map: endpoint id → the `config` held by the tracked
`LocalClient`. -/
abbrev ClientMap := List (String × EndpointConfig)

/-- `Map.has`. -/
def mapHas (m : ClientMap) (k : String) : Bool :=
  m.any (fun p => p.1 == k)

/-- `Map.get`. -/
def mapGet (m : ClientMap) (k : String) : Option EndpointConfig :=
  (m.find? (fun p => p.1 == k)).map Prod.snd

/-- `Map.delete`. -/
def mapDelete (m : ClientMap) (k : String) : ClientMap :=
  m.filter (fun p => !(p.1 == k))

/-- `Map.set`: replace in place when the key exists, append otherwise. -/
def mapSet (m : ClientMap) (k : String) (v : EndpointConfig) : ClientMap :=
  if mapHas m k then m.map (fun p => if p.1 == k then (k, v) else p)
  else m ++ [(k, v)]

/-- `_addEndpoint`: skip a disabled descriptor; otherwise disconnect and
drop any existing entry for the id, then store a fresh client (its
`connect()` is started asynchronously and does not touch the map). -/
def addEndpoint (m : ClientMap) (ep : EndpointConfig) : ClientMap :=
  if !ep.isEnabled then m
  else mapSet (mapDelete m ep.id) ep.id ep

/-- `_removeEndpoint`: disconnect and drop the entry, if present. -/
def removeEndpoint (m : ClientMap) (endpointId : String) : ClientMap :=
  mapDelete m endpointId

/-- Body of the add loop of `_syncEndpoints`: add each enabled incoming
descriptor that is not yet tracked; leave tracked ids alone (even when
the incoming descriptor differs or is disabled). -/
def syncAddStep (acc : ClientMap) (ep : EndpointConfig) : ClientMap :=
  if ep.isEnabled then
    if mapHas acc ep.id then acc else addEndpoint acc ep
  else acc

/-- `_syncEndpoints`, assembled from the removal filter and the add
loop above. -/
def syncEndpoints (m : ClientMap) (endpoints : List EndpointConfig) :
    ClientMap :=
  let incoming := endpoints.map EndpointConfig.id
  let m1 := m.filter (fun p => incoming.contains p.1)
  endpoints.foldl syncAddStep m1

/-- `_toggleEndpoint`, with the status updates it sends.  Disabling a
tracked id sends one "disconnected" update from the dropped client's
`disconnect()` status callback and one directly from the handler. -/
def toggleEndpoint (m : ClientMap) (endpointId : String)
    (isEnabled : Bool) : ClientMap × List OutMsg :=
  if !isEnabled then
    if mapHas m endpointId then
      (mapDelete m endpointId,
       [.statusUpdate endpointId .disconnected none,
        .statusUpdate endpointId .disconnected none])
    else (m, [])
  else
    if mapHas m endpointId then (m, [])
    else (m, [.statusUpdate endpointId .connecting none])

/-- `_updateEndpoint`: always remove, then add again when enabled. -/
def updateEndpoint (m : ClientMap) (ep : EndpointConfig) : ClientMap :=
  let m1 := removeEndpoint m ep.id
  if ep.isEnabled then addEndpoint m1 ep else m1

/-- `_refreshEndpoint`: when tracked, disconnect and drop, then re-add
using the dropped client's own stored config. -/
def refreshEndpoint (m : ClientMap) (endpointId : String) : ClientMap :=
  match mapGet m endpointId with
  | some cfg => addEndpoint (mapDelete m endpointId) cfg
  | none => m

/-- The control-channel events that mutate the `_clients` map. -/
inductive OrchEvent where
  | sync (endpoints : List EndpointConfig)
  | add (endpoint : EndpointConfig)
  | remove (endpointId : String)
  | toggle (endpointId : String) (isEnabled : Bool)
  | update (endpoint : EndpointConfig)
  | refresh (endpointId : String)
deriving Repr

/-- Map effect of one control-channel event. -/
def orchStep (m : ClientMap) : OrchEvent → ClientMap
  | .sync eps => syncEndpoints m eps
  | .add ep => addEndpoint m ep
  | .remove i => removeEndpoint m i
  | .toggle i en => (toggleEndpoint m i en).1
  | .update ep => updateEndpoint m ep
  | .refresh i => refreshEndpoint m i

/-- Run a sequence of events against the initially empty map. -/
def runEvents (evs : List OrchEvent) : ClientMap :=
  evs.foldl orchStep []

/-- `_handleToolCall`: the outbound message(s) produced for one tool-call
request, given the tracked client's current status (`none` when the id is
untracked) and the downstream call outcome. -/
def handleToolCall (clientStatus : Option LocalClientStatus)
    (callId endpointId : String) (downstream : Except String Value) :
    List OutMsg :=
  match clientStatus with
  | none =>
      [.toolError callId ("No local client for endpoint " ++ endpointId)]
  | some st =>
      if st ≠ .connected then
        [.toolError callId ("Endpoint " ++ endpointId ++
          " is not connected (status: " ++ st.text ++ ")")]
      else
        match downstream with
        | .ok v => [.toolResult callId v]
        | .error e => [.toolError callId e]

/-- `AgentTunnel.announceTools`: each tool is trimmed to
name/description/inputSchema before sending. -/
def trimTool (t : Tool) : TrimmedTool :=
  { name := t.name, description := t.description,
    inputSchema := t.inputSchema }

/-- The `toolsAnnounce` message built by `AgentTunnel.announceTools`. -/
def announceTools (endpointId : String) (tools : List Tool) : OutMsg :=
  .toolsAnnounce endpointId (tools.map trimTool)

/-- Agent-level state for `stop()`: the clients map plus whether the
tunnel socket is present. -/
structure AgentState where
  clients : ClientMap
  tunnelUp : Bool
deriving Repr

/-- `McpCentralAgent.stop`: disconnect every tracked client (each emits
one "disconnected" status update through its wired callback), drop all
entries, then disconnect the tunnel. -/
def stop (a : AgentState) : AgentState × List OutMsg :=
  ({ clients := [], tunnelUp := false },
   a.clients.map (fun p => .statusUpdate p.1 .disconnected none))

/-! ## `_connectHttp`: streaming-POST with server-sent-events fallback -/

/-- The two HTTP transport flavours tried by `_connectHttp`. -/
inductive HttpKind where
  | streamable
  | sse
deriving DecidableEq, Repr

/-- A constructed HTTP transport: flavour plus the url/headers it was
built against. -/
structure TransportInst where
  kind : HttpKind
  url : String
  headers : List (String × String)
deriving DecidableEq, Repr

/-- Outcome of `_connectHttp`: the transport returned (or the propagated
failure) together with the transports explicitly closed on the way. -/
structure HttpConnectResult where
  result : Except String TransportInst
  closed : List TransportInst
deriving Repr

/-- `_connectHttp`: build a streaming-POST transport against the
endpoint's url/headers and try it; on failure close it and try a
server-sent-events transport against the same url/headers; on a second
failure close that too and propagate the second error.  The oracles give
each attempt's outcome (`none` = the awaited `client.connect` resolved,
`some msg` = it threw `msg`). -/
def connectHttp (endpointId : String) (url : Option String)
    (headers : List (String × String))
    (streamOutcome sseOutcome : Option String) : HttpConnectResult :=
  match url with
  | none =>
      { result := .error ("streamable-http endpoint " ++ endpointId ++
          " has no URL"),
        closed := [] }
  | some u =>
      let streamableTransport : TransportInst :=
        { kind := .streamable, url := u, headers := headers }
      match streamOutcome with
      | none => { result := .ok streamableTransport, closed := [] }
      | some _ =>
          let sseTransport : TransportInst :=
            { kind := .sse, url := u, headers := headers }
          match sseOutcome with
          | none =>
              { result := .ok sseTransport, closed := [streamableTransport] }
          | some e2 =>
              { result := .error e2,
                closed := [streamableTransport, sseTransport] }

/-! ## Spec-side id-set recurrences for the tracking claim -/

/-- One step of the tracked-id recurrence exactly as the spec claim words
it: a full replace resets the set to the ids present and enabled in the
replace; adds insert enabled ids; removes and disable-toggles erase;
updates erase then insert when enabled; refresh keeps the set. -/
def claimTrackedStep (ids : List String) : OrchEvent → List String
  | .sync eps => (eps.filter EndpointConfig.isEnabled).map EndpointConfig.id
  | .add ep => if ep.isEnabled then ep.id :: ids else ids
  | .remove i => ids.filter (fun j => !(j == i))
  | .toggle i en => if en then ids else ids.filter (fun j => !(j == i))
  | .update ep =>
      let ids1 := ids.filter (fun j => !(j == ep.id))
      if ep.isEnabled then ep.id :: ids1 else ids1
  | .refresh _ => ids

/-- The tracked-id set the claim predicts for an event history. -/
def claimTracked (evs : List OrchEvent) : List String :=
  evs.foldl claimTrackedStep []

/-- One step of the tracked-id recurrence as the code actually behaves:
identical to `claimTrackedStep` except on a full replace, which keeps
every previously tracked id still present in the replace (whether or not
its incoming descriptor is enabled) and adds the enabled incoming ids. -/
def amendedTrackedStep (ids : List String) : OrchEvent → List String
  | .sync eps =>
      ids.filter (fun j => (eps.map EndpointConfig.id).contains j) ++
        (eps.filter EndpointConfig.isEnabled).map EndpointConfig.id
  | .add ep => if ep.isEnabled then ep.id :: ids else ids
  | .remove i => ids.filter (fun j => !(j == i))
  | .toggle i en => if en then ids else ids.filter (fun j => !(j == i))
  | .update ep =>
      let ids1 := ids.filter (fun j => !(j == ep.id))
      if ep.isEnabled then ep.id :: ids1 else ids1
  | .refresh _ => ids

/-- The tracked-id set the code maintains, computed from the history. -/
def amendedTracked (evs : List OrchEvent) : List String :=
  evs.foldl amendedTrackedStep []

/-- Structural invariant of the `_clients` map: keys are unique (it is a
`Map`), and every stored client was created by `_addEndpoint` from an
enabled descriptor whose `id` is its key. -/
def MapInv (m : ClientMap) : Prop :=
  (m.map Prod.fst).Nodup ∧ ∀ p ∈ m, p.2.isEnabled = true ∧ p.2.id = p.1

/-- An enabled stdio endpoint descriptor used in concrete scenarios. -/
def cfgA : EndpointConfig :=
  { id := "a", name := "A", «namespace» := "ns", transport := .stdio,
    url := none, command := some "srv", args := [], env := [],
    headers := [], isEnabled := true }

/-- The same descriptor with `isEnabled` cleared. -/
def cfgA0 : EndpointConfig := { cfgA with isEnabled := false }

end McpCentralAgent

namespace McpCentralAgent

/-! ## Association-list map lemmas -/

theorem mapHas_iff (m : ClientMap) (k : String) :
    mapHas m k = true ↔ ∃ p ∈ m, p.1 = k := by
  simp [mapHas]

theorem mapHas_mapDelete (m : ClientMap) (k i : String) :
    mapHas (mapDelete m k) i = true ↔ mapHas m i = true ∧ i ≠ k := by
  simp only [mapHas_iff, mapDelete]
  constructor
  · rintro ⟨p, hp, rfl⟩
    rcases List.mem_filter.1 hp with ⟨hm, hne⟩
    exact ⟨⟨p, hm, rfl⟩, by simpa using hne⟩
  · rintro ⟨⟨p, hm, rfl⟩, hne⟩
    exact ⟨p, List.mem_filter.2 ⟨hm, by simpa using hne⟩, rfl⟩

theorem mapHas_mapDelete_self (m : ClientMap) (k : String) :
    mapHas (mapDelete m k) k = false := by
  rw [Bool.eq_false_iff]
  intro h
  exact ((mapHas_mapDelete m k k).1 h).2 rfl

theorem mapSet_of_not_has (m : ClientMap) (k : String) (v : EndpointConfig)
    (h : mapHas m k = false) : mapSet m k v = m ++ [(k, v)] := by
  simp [mapSet, h]

theorem addEndpoint_enabled (m : ClientMap) (ep : EndpointConfig)
    (he : ep.isEnabled = true) :
    addEndpoint m ep = mapDelete m ep.id ++ [(ep.id, ep)] := by
  rw [show addEndpoint m ep =
      if !ep.isEnabled then m else mapSet (mapDelete m ep.id) ep.id ep
    from rfl, he]
  simpa using mapSet_of_not_has _ _ _ (mapHas_mapDelete_self m ep.id)

theorem mapHas_append (a b : ClientMap) (i : String) :
    mapHas (a ++ b) i = (mapHas a i || mapHas b i) := by
  simp [mapHas, List.any_append]

theorem mapHas_singleton (k : String) (v : EndpointConfig) (i : String) :
    mapHas [(k, v)] i = true ↔ i = k := by
  show ([(k, v)].any (fun p => p.1 == i)) = true ↔ i = k
  rw [List.any_cons, List.any_nil, Bool.or_false, beq_iff_eq]
  exact eq_comm

theorem mapHas_addEndpoint (m : ClientMap) (ep : EndpointConfig)
    (i : String) :
    mapHas (addEndpoint m ep) i = true ↔
      mapHas m i = true ∨ (ep.isEnabled = true ∧ i = ep.id) := by
  cases he : ep.isEnabled with
  | false => simp [addEndpoint, he]
  | true =>
    rw [addEndpoint_enabled m ep he, mapHas_append, Bool.or_eq_true,
      mapHas_mapDelete, mapHas_singleton]
    constructor
    · rintro (⟨h1, _⟩ | h2)
      · exact Or.inl h1
      · exact Or.inr ⟨rfl, h2⟩
    · rintro (h1 | ⟨_, h2⟩)
      · by_cases hi : i = ep.id
        · exact Or.inr hi
        · exact Or.inl ⟨h1, hi⟩
      · exact Or.inr h2

theorem mapHas_eq_keys_mem (m : ClientMap) (k : String) :
    mapHas m k = true ↔ k ∈ m.map Prod.fst := by
  rw [mapHas_iff]
  constructor
  · rintro ⟨p, hp, rfl⟩
    exact List.mem_map_of_mem Prod.fst hp
  · intro hk
    rcases List.mem_map.1 hk with ⟨p, hp, rfl⟩
    exact ⟨p, hp, rfl⟩

theorem mapGet_some_mem (m : ClientMap) (k : String) (v : EndpointConfig)
    (h : mapGet m k = some v) : (k, v) ∈ m := by
  unfold mapGet at h
  cases hf : m.find? (fun p => p.1 == k) with
  | none => rw [hf] at h; cases h
  | some p =>
    rw [hf] at h
    have hp := List.find?_some hf
    have hma : p ∈ m := List.mem_of_find?_eq_some hf
    have hk : p.1 = k := by simpa using hp
    cases h
    rw [← hk]
    exact hma

theorem mapGet_none_iff (m : ClientMap) (k : String) :
    mapGet m k = none ↔ mapHas m k = false := by
  unfold mapGet mapHas
  cases hf : m.find? (fun p => p.1 == k) with
  | none =>
    rw [List.find?_eq_none] at hf
    constructor
    · intro _
      rw [Bool.eq_false_iff]
      intro hany
      rcases List.any_eq_true.1 hany with ⟨p, hm, hp⟩
      exact absurd hp (by simpa using hf p hm)
    · intro _
      rfl
  | some p =>
    have hp := List.find?_some hf
    have hma : p ∈ m := List.mem_of_find?_eq_some hf
    constructor
    · intro hcon
      simp at hcon
    · intro hfalse
      have hany : (m.any fun q => q.1 == k) = true :=
        List.any_eq_true.2 ⟨p, hma, hp⟩
      rw [hfalse] at hany
      cases hany

theorem mapHas_some_get (m : ClientMap) (k : String)
    (h : mapHas m k = true) : ∃ v, mapGet m k = some v := by
  cases hg : mapGet m k with
  | none => rw [mapGet_none_iff] at hg; rw [h] at hg; cases hg
  | some v => exact ⟨v, rfl⟩

/-! ## Invariant preservation and the tracked-id-set recurrence -/

theorem MapInv_nil : MapInv [] := by
  constructor
  · exact List.nodup_nil
  · intro p hp
    cases hp

theorem MapInv_filter (m : ClientMap) (q : String × EndpointConfig → Bool)
    (h : MapInv m) : MapInv (m.filter q) := by
  obtain ⟨h1, h2⟩ := h
  refine ⟨?_, fun p hp => h2 p (List.mem_of_mem_filter hp)⟩
  exact List.Nodup.sublist ((List.filter_sublist m).map Prod.fst) h1

theorem MapInv_mapDelete (m : ClientMap) (k : String) (h : MapInv m) :
    MapInv (mapDelete m k) :=
  MapInv_filter m _ h

theorem MapInv_addEndpoint (m : ClientMap) (ep : EndpointConfig)
    (h : MapInv m) : MapInv (addEndpoint m ep) := by
  cases he : ep.isEnabled with
  | false => simpa [addEndpoint, he] using h
  | true =>
    rw [addEndpoint_enabled m ep he]
    obtain ⟨h1, h2⟩ := MapInv_mapDelete m ep.id h
    constructor
    · rw [List.map_append, List.nodup_append]
      refine ⟨h1, List.nodup_singleton _, ?_⟩
      intro x hx hxs
      have hxe : x = ep.id := by simpa using hxs
      rw [hxe] at hx
      have hcon : mapHas (mapDelete m ep.id) ep.id = true :=
        (mapHas_eq_keys_mem _ _).2 hx
      rw [mapHas_mapDelete_self] at hcon
      cases hcon
    · intro p hp
      rcases List.mem_append.1 hp with hp1 | hp2
      · exact h2 p hp1
      · have hpe : p = (ep.id, ep) := by simpa using hp2
        subst hpe
        exact ⟨he, rfl⟩

theorem MapInv_syncAddStep (m : ClientMap) (ep : EndpointConfig)
    (h : MapInv m) : MapInv (syncAddStep m ep) := by
  unfold syncAddStep
  cases he : ep.isEnabled with
  | false => simpa using h
  | true =>
    cases hh : mapHas m ep.id with
    | true => simpa [hh] using h
    | false => simpa [hh] using MapInv_addEndpoint m ep h

theorem mapHas_syncAddStep (m : ClientMap) (ep : EndpointConfig)
    (i : String) :
    mapHas (syncAddStep m ep) i = true ↔
      mapHas m i = true ∨ (ep.isEnabled = true ∧ i = ep.id) := by
  unfold syncAddStep
  cases he : ep.isEnabled with
  | false => simp
  | true =>
    cases hh : mapHas m ep.id with
    | true =>
      simp only [if_true, hh]
      constructor
      · exact Or.inl
      · rintro (h | ⟨_, rfl⟩)
        · exact h
        · exact hh
    | false =>
      simp only [if_true, hh, Bool.false_eq_true, if_false]
      simpa [he] using mapHas_addEndpoint m ep i

theorem syncLoop_spec (eps : List EndpointConfig) :
    ∀ m : ClientMap, MapInv m →
      MapInv (eps.foldl syncAddStep m) ∧
      ∀ i, mapHas (eps.foldl syncAddStep m) i = true ↔
        mapHas m i = true ∨
          i ∈ (eps.filter EndpointConfig.isEnabled).map EndpointConfig.id := by
  induction eps with
  | nil =>
    intro m hm
    refine ⟨hm, fun i => ?_⟩
    simp
  | cons ep rest ih =>
    intro m hm
    obtain ⟨hinv, hmem⟩ := ih (syncAddStep m ep) (MapInv_syncAddStep m ep hm)
    refine ⟨hinv, fun i => ?_⟩
    rw [List.foldl_cons, hmem i, mapHas_syncAddStep m ep i]
    cases he : ep.isEnabled <;> simp [List.filter_cons, he] <;> tauto

theorem syncEndpoints_spec (m : ClientMap) (eps : List EndpointConfig)
    (hm : MapInv m) :
    MapInv (syncEndpoints m eps) ∧
    ∀ i, mapHas (syncEndpoints m eps) i = true ↔
      (mapHas m i = true ∧ i ∈ eps.map EndpointConfig.id) ∨
        i ∈ (eps.filter EndpointConfig.isEnabled).map EndpointConfig.id := by
  unfold syncEndpoints
  have hminv :
      MapInv (m.filter fun p => (eps.map EndpointConfig.id).contains p.1) :=
    MapInv_filter m _ hm
  obtain ⟨hinv, hmem⟩ := syncLoop_spec eps _ hminv
  refine ⟨hinv, fun i => ?_⟩
  rw [hmem i]
  have hfilter :
      mapHas (m.filter fun p => (eps.map EndpointConfig.id).contains p.1) i
          = true ↔
        mapHas m i = true ∧ i ∈ eps.map EndpointConfig.id := by
    rw [mapHas_iff, mapHas_iff]
    constructor
    · rintro ⟨p, hp, rfl⟩
      rcases List.mem_filter.1 hp with ⟨hpm, hc⟩
      exact ⟨⟨p, hpm, rfl⟩, by simpa using hc⟩
    · rintro ⟨⟨p, hpm, rfl⟩, hin⟩
      exact ⟨p, List.mem_filter.2 ⟨hpm, by simpa using hin⟩, rfl⟩
  rw [hfilter]

theorem orchStep_spec (m : ClientMap) (ids : List String) (ev : OrchEvent)
    (hm : MapInv m) (hids : ∀ i, i ∈ ids ↔ mapHas m i = true) :
    MapInv (orchStep m ev) ∧
    ∀ i, i ∈ amendedTrackedStep ids ev ↔ mapHas (orchStep m ev) i = true := by
  cases ev with
  | sync eps =>
    obtain ⟨hinv, hmem⟩ := syncEndpoints_spec m eps hm
    refine ⟨hinv, fun i => ?_⟩
    simp only [orchStep, amendedTrackedStep, List.mem_append, List.mem_filter]
    rw [hmem i]
    constructor
    · rintro (⟨hin, hc⟩ | he)
      · exact Or.inl ⟨(hids i).1 hin, by simpa using hc⟩
      · exact Or.inr he
    · rintro (⟨hh, hin⟩ | he)
      · exact Or.inl ⟨(hids i).2 hh, by simpa using hin⟩
      · exact Or.inr he
  | add ep =>
    refine ⟨MapInv_addEndpoint m ep hm, fun i => ?_⟩
    simp only [orchStep, amendedTrackedStep]
    rw [mapHas_addEndpoint m ep i]
    cases he : ep.isEnabled with
    | false => simpa using hids i
    | true =>
      rw [if_pos rfl, List.mem_cons]
      have h0 := hids i
      constructor
      · rintro (rfl | hin)
        · exact Or.inr ⟨rfl, rfl⟩
        · exact Or.inl (h0.1 hin)
      · rintro (hh | ⟨_, rfl⟩)
        · exact Or.inr (h0.2 hh)
        · exact Or.inl rfl
  | remove i0 =>
    refine ⟨MapInv_mapDelete m i0 hm, fun i => ?_⟩
    simp only [orchStep, amendedTrackedStep, removeEndpoint]
    rw [mapHas_mapDelete, List.mem_filter]
    have h0 := hids i
    constructor
    · rintro ⟨hin, hne⟩
      exact ⟨h0.1 hin, by simpa using hne⟩
    · rintro ⟨hh, hne⟩
      exact ⟨h0.2 hh, by simpa using hne⟩
  | toggle i0 en =>
    cases en with
    | true =>
      have hmap : orchStep m (.toggle i0 true) = m := by
        simp only [orchStep, toggleEndpoint]
        cases hh : mapHas m i0 <;> simp [hh]
      rw [hmap]
      exact ⟨hm, fun i => by simpa using hids i⟩
    | false =>
      cases hh : mapHas m i0 with
      | true =>
        have hmap : orchStep m (.toggle i0 false) = mapDelete m i0 := by
          simp [orchStep, toggleEndpoint, hh]
        rw [hmap]
        refine ⟨MapInv_mapDelete m i0 hm, fun i => ?_⟩
        have hred : amendedTrackedStep ids (OrchEvent.toggle i0 false) =
            ids.filter (fun j => !(j == i0)) := by
          simp [amendedTrackedStep]
        rw [hred, mapHas_mapDelete, List.mem_filter]
        have h0 := hids i
        constructor
        · rintro ⟨hin, hne⟩
          exact ⟨h0.1 hin, by simpa using hne⟩
        · rintro ⟨hhi, hne⟩
          exact ⟨h0.2 hhi, by simpa using hne⟩
      | false =>
        have hmap : orchStep m (.toggle i0 false) = m := by
          simp [orchStep, toggleEndpoint, hh]
        rw [hmap]
        refine ⟨hm, fun i => ?_⟩
        have hred : amendedTrackedStep ids (OrchEvent.toggle i0 false) =
            ids.filter (fun j => !(j == i0)) := by
          simp [amendedTrackedStep]
        rw [hred, List.mem_filter]
        have h0 := hids i
        constructor
        · rintro ⟨hin, _⟩
          exact h0.1 hin
        · intro hhi
          refine ⟨h0.2 hhi, ?_⟩
          have hne : i ≠ i0 := by
            rintro rfl
            rw [hh] at hhi
            cases hhi
          simpa using hne
  | update ep =>
    have hdel := MapInv_mapDelete m ep.id hm
    cases he : ep.isEnabled with
    | false =>
      have hmap : orchStep m (.update ep) = mapDelete m ep.id := by
        simp [orchStep, updateEndpoint, removeEndpoint, he]
      rw [hmap]
      refine ⟨hdel, fun i => ?_⟩
      have hred : amendedTrackedStep ids (OrchEvent.update ep) =
          ids.filter (fun j => !(j == ep.id)) := by
        simp [amendedTrackedStep, he]
      rw [hred, mapHas_mapDelete, List.mem_filter]
      have h0 := hids i
      constructor
      · rintro ⟨hin, hne⟩
        exact ⟨h0.1 hin, by simpa using hne⟩
      · rintro ⟨hhi, hne⟩
        exact ⟨h0.2 hhi, by simpa using hne⟩
    | true =>
      have hmap : orchStep m (.update ep) =
          addEndpoint (mapDelete m ep.id) ep := by
        simp [orchStep, updateEndpoint, removeEndpoint, he]
      rw [hmap]
      refine ⟨MapInv_addEndpoint _ ep hdel, fun i => ?_⟩
      have hred : amendedTrackedStep ids (OrchEvent.update ep) =
          ep.id :: ids.filter (fun j => !(j == ep.id)) := by
        simp [amendedTrackedStep, he]
      rw [hred, mapHas_addEndpoint, mapHas_mapDelete, List.mem_cons,
        List.mem_filter]
      have h0 := hids i
      constructor
      · rintro (rfl | ⟨hin, hne⟩)
        · exact Or.inr ⟨he, rfl⟩
        · exact Or.inl ⟨h0.1 hin, by simpa using hne⟩
      · rintro (⟨hh1, hne⟩ | ⟨_, rfl⟩)
        · exact Or.inr ⟨h0.2 hh1, by simpa using hne⟩
        · exact Or.inl rfl
  | refresh i0 =>
    cases hg : mapGet m i0 with
    | none =>
      have hmap : orchStep m (.refresh i0) = m := by
        simp [orchStep, refreshEndpoint, hg]
      rw [hmap]
      exact ⟨hm, fun i => by simpa using hids i⟩
    | some cfg =>
      have hmem0 : (i0, cfg) ∈ m := mapGet_some_mem m i0 cfg hg
      obtain ⟨hen, hid⟩ := hm.2 (i0, cfg) hmem0
      have hhas0 : mapHas m i0 = true :=
        (mapHas_iff m i0).2 ⟨(i0, cfg), hmem0, rfl⟩
      have hmap : orchStep m (.refresh i0) =
          addEndpoint (mapDelete m i0) cfg := by
        simp [orchStep, refreshEndpoint, hg]
      rw [hmap]
      refine ⟨MapInv_addEndpoint _ cfg (MapInv_mapDelete m i0 hm),
        fun i => ?_⟩
      simp only [amendedTrackedStep]
      rw [mapHas_addEndpoint, mapHas_mapDelete]
      have h0 := hids i
      constructor
      · intro hin
        by_cases hi : i = i0
        · subst hi
          exact Or.inr ⟨hen, hid.symm⟩
        · exact Or.inl ⟨h0.1 hin, hi⟩
      · rintro (⟨hh1, _⟩ | ⟨_, hi⟩)
        · exact h0.2 hh1
        · rw [hid] at hi
          subst hi
          exact h0.2 hhas0

theorem runEvents_spec (evs : List OrchEvent) :
    ∀ (m : ClientMap) (ids : List String), MapInv m →
      (∀ i, i ∈ ids ↔ mapHas m i = true) →
      MapInv (evs.foldl orchStep m) ∧
      ∀ i, i ∈ evs.foldl amendedTrackedStep ids ↔
        mapHas (evs.foldl orchStep m) i = true := by
  induction evs with
  | nil =>
    intro m ids hm hids
    exact ⟨hm, hids⟩
  | cons ev rest ih =>
    intro m ids hm hids
    obtain ⟨hinv, hmem⟩ := orchStep_spec m ids ev hm hids
    exact ih (orchStep m ev) (amendedTrackedStep ids ev) hinv hmem

/-- Claim C1, amended: for every sequence of control-channel events the
tracked-endpoint id set is exactly characterised by the recurrence
`amendedTracked`, and the map never holds duplicate keys.  The
recurrence is the claim's, except that a full endpoint-set replace also
keeps every previously tracked id that is still present in the replace,
even when its incoming descriptor is disabled (the code only removes
ids absent from the incoming list). -/
theorem C1_tracked_id_set (evs : List OrchEvent) :
    ((runEvents evs).map Prod.fst).Nodup ∧
    ∀ i, mapHas (runEvents evs) i = true ↔ i ∈ amendedTracked evs := by
  obtain ⟨⟨hnodup, _⟩, hmem⟩ :=
    runEvents_spec evs [] [] MapInv_nil (by intro i; simp [mapHas])
  exact ⟨hnodup, fun i => (hmem i).symm⟩

/-- Claim C1, counterexample: add enabled endpoint "a", then a full
replace whose only descriptor is "a" disabled.  The claim predicts an
empty tracked set; the code keeps "a" tracked because its id is present
in the replace. -/
theorem C1_counterexample :
    mapHas (runEvents [.add cfgA, .sync [cfgA0]]) "a" = true ∧
    "a" ∉ claimTracked [.add cfgA, .sync [cfgA0]] := by
  constructor
  · rfl
  · intro h
    rw [show claimTracked [OrchEvent.add cfgA, OrchEvent.sync [cfgA0]] = []
      from rfl] at h
    cases h

/-! ## Tool-call routing, toggling, announcing, stopping -/

/-- Claim C2: routing a tool call produces exactly one outcome message,
keyed by the original callId: an untracked id fails with the
"No local client" message, a tracked-but-not-connected id fails with a
message naming its current status, and a connected id forwards the
downstream success result or failure message. -/
theorem C2_tool_call_routing (callId endpointId : String)
    (lookup : Option LocalClientStatus)
    (downstream : Except String Value) :
    (handleToolCall lookup callId endpointId downstream).length = 1 ∧
    (lookup = none →
      handleToolCall lookup callId endpointId downstream =
        [.toolError callId
          ("No local client for endpoint " ++ endpointId)]) ∧
    (∀ st, lookup = some st → st ≠ .connected →
      handleToolCall lookup callId endpointId downstream =
        [.toolError callId ("Endpoint " ++ endpointId ++
          " is not connected (status: " ++ st.text ++ ")")]) ∧
    (∀ v, lookup = some .connected → downstream = .ok v →
      handleToolCall lookup callId endpointId downstream =
        [.toolResult callId v]) ∧
    (∀ e, lookup = some .connected → downstream = .error e →
      handleToolCall lookup callId endpointId downstream =
        [.toolError callId e]) := by
  refine ⟨?_, ?_, ?_, ?_, ?_⟩
  · cases lookup with
    | none => rfl
    | some st =>
      by_cases hst : st = LocalClientStatus.connected
      · subst hst
        cases downstream <;> simp [handleToolCall]
      · simp [handleToolCall, hst]
  · rintro rfl
    rfl
  · rintro st rfl hst
    simp [handleToolCall, hst]
  · rintro v rfl rfl
    simp [handleToolCall]
  · rintro e rfl rfl
    simp [handleToolCall]

/-- Claim C2 witness: concrete untracked and connected calls. -/
theorem C2_witness :
    handleToolCall none "c7" "e7" (.ok .null) =
      [.toolError "c7" ("No local client for endpoint " ++ "e7")] ∧
    handleToolCall (some .connected) "c8" "e8" (.ok .null) =
      [.toolResult "c8" .null] :=
  ⟨(C2_tool_call_routing "c7" "e7" none (.ok .null)).2.1 rfl,
   (C2_tool_call_routing "c8" "e8" (some .connected)
     (.ok .null)).2.2.2.1 .null rfl rfl⟩

/-- Claim C7, counterexample: a second `disconnect()` on an
already-disconnected `LocalClient` fires the "disconnected" status
callback again, so it is not observationally a no-op with respect to
status callbacks. -/
theorem C7_counterexample :
    (lcStep (lcStep LCState.init .disconnectCall).1 .disconnectCall).2 =
      [.statusChanged .disconnected none] := rfl

/-- Claim C7, amended: neither a second `disconnect()` nor a second
`stop()` raises an error, and the second `stop()` emits nothing and
leaves the agent state unchanged; but the second `disconnect()`, while
leaving the client state unchanged, re-fires one "disconnected" status
callback. -/
theorem C7_idempotence (s : LCState) (a : AgentState) :
    (lcStep (lcStep s .disconnectCall).1 .disconnectCall).1 =
      (lcStep s .disconnectCall).1 ∧
    (lcStep (lcStep s .disconnectCall).1 .disconnectCall).2 =
      [.statusChanged .disconnected none] ∧
    stop (stop a).1 = ((stop a).1, []) := by
  refine ⟨?_, rfl, rfl⟩
  simp [lcStep, setStatus]

/-- Claim C8, counterexample: disabling the tracked endpoint "a" sends
two "disconnected" status updates for it, not exactly one. -/
theorem C8_counterexample :
    (toggleEndpoint [("a", cfgA)] "a" false).2 =
      [.statusUpdate "a" .disconnected none,
       .statusUpdate "a" .disconnected none] ∧
    (toggleEndpoint [("a", cfgA)] "a" false).2.length ≠ 1 := by
  exact ⟨rfl, by decide⟩

/-- Claim C8, amended: a disable toggle on a tracked id drops exactly
that entry and sends exactly two "disconnected" status updates for it
(one from the dropped client's disconnect status callback, one sent
directly by the handler); a disable toggle on an untracked id does
nothing; an enable toggle on an untracked id sends one "connecting"
status update, leaves the map unchanged, and creates no connection and
no fabricated descriptor. -/
theorem C8_toggle_behaviour (m : ClientMap) (endpointId : String) :
    (mapHas m endpointId = true →
      toggleEndpoint m endpointId false =
        (mapDelete m endpointId,
         [.statusUpdate endpointId .disconnected none,
          .statusUpdate endpointId .disconnected none])) ∧
    (mapHas m endpointId = false →
      toggleEndpoint m endpointId false = (m, [])) ∧
    (mapHas m endpointId = false →
      toggleEndpoint m endpointId true =
        (m, [.statusUpdate endpointId .connecting none])) ∧
    (∀ j, mapHas (toggleEndpoint m endpointId false).1 j = true ↔
      mapHas m j = true ∧ j ≠ endpointId) := by
  refine ⟨fun h => by simp [toggleEndpoint, h],
    fun h => by simp [toggleEndpoint, h],
    fun h => by simp [toggleEndpoint, h], fun j => ?_⟩
  cases h : mapHas m endpointId with
  | true =>
    rw [show (toggleEndpoint m endpointId false).1 = mapDelete m endpointId
      by simp [toggleEndpoint, h]]
    exact mapHas_mapDelete m endpointId j
  | false =>
    rw [show (toggleEndpoint m endpointId false).1 = m
      by simp [toggleEndpoint, h]]
    constructor
    · intro hj
      refine ⟨hj, ?_⟩
      rintro rfl
      rw [h] at hj
      cases hj
    · exact And.left

/-- Claim C8 witness: the amended behaviour at a concrete one-entry map
and a concrete untracked id. -/
theorem C8_witness :
    toggleEndpoint [("a", cfgA)] "a" false =
      ([], [.statusUpdate "a" .disconnected none,
            .statusUpdate "a" .disconnected none]) ∧
    toggleEndpoint [("a", cfgA)] "b" true =
      ([("a", cfgA)], [.statusUpdate "b" .connecting none]) := by
  have h1 := (C8_toggle_behaviour [("a", cfgA)] "a").1 rfl
  have h2 := (C8_toggle_behaviour [("a", cfgA)] "b").2.2.1 rfl
  exact ⟨h1, h2⟩

/-- Claim C9: `announceTools` sends the tool list with each entry
trimmed to exactly name, description and input-schema; any two tool
lists that agree on those three fields yield identical outbound
messages, so every other field of the discovered descriptors is omitted
from the message. -/
theorem C9_announce_trims (endpointId : String) (tools tools2 : List Tool)
    (h : List.Forall₂ (fun t u => t.name = u.name ∧
      t.description = u.description ∧ t.inputSchema = u.inputSchema)
      tools tools2) :
    announceTools endpointId tools =
      .toolsAnnounce endpointId (tools.map trimTool) ∧
    announceTools endpointId tools = announceTools endpointId tools2 := by
  refine ⟨rfl, ?_⟩
  unfold announceTools
  congr 1
  induction h with
  | nil => rfl
  | cons hrel htail ih =>
    simp only [List.map_cons, ih]
    congr 1
    obtain ⟨h1, h2, h3⟩ := hrel
    simp [trimTool, h1, h2, h3]

/-- Claim C9 witness: a tool with an extra field announces identically
to the same tool without it. -/
theorem C9_witness :
    announceTools "e" [⟨"t", some "d", .null, [("annotations", .num 1)]⟩] =
      announceTools "e" [⟨"t", some "d", .null, []⟩] :=
  (C9_announce_trims "e" _ _
    (List.Forall₂.cons ⟨rfl, rfl, rfl⟩ List.Forall₂.nil)).2

/-- Claim C10: while one `connect()` is in flight (the `_connecting`
flag is set), a further `connect()` call returns immediately without
changing any state component and without firing any callback. -/
theorem C10_connect_reentrant (s : LCState) (h : s.connecting = true) :
    lcStep s .connectCall = (s, []) := by
  simp [lcStep, connectEntry, h]

/-- Claim C10 witness: a concrete in-flight state. -/
theorem C10_witness :
    lcStep { LCState.init with connecting := true } .connectCall =
      ({ LCState.init with connecting := true }, []) :=
  C10_connect_reentrant { LCState.init with connecting := true } rfl

/-! ## LocalClient invariants -/

theorem LCInv_init : LCInv LCState.init := by
  intro h
  exact absurd rfl h

theorem connectEntry_LCInv (s : LCState) (h : LCInv s) :
    LCInv (connectEntry s).1 := by
  unfold connectEntry
  cases hg : (s.destroyed || s.connecting) with
  | true =>
    rw [if_pos rfl]
    exact h
  | false =>
    rw [if_neg Bool.false_ne_true]
    intro _
    refine ⟨rfl, ?_, ?_⟩
    · intro hx
      cases hx
    · intro hx
      cases hx

theorem lcStep_LCInv (s : LCState) (e : LCEvent) (h : LCInv s) :
    LCInv (lcStep s e).1 := by
  cases e with
  | connectCall => exact connectEntry_LCInv s h
  | transportOk =>
    show LCInv (if s.pc = ConnPC.awaitingTransport then _ else (s, [])).1
    by_cases hpc : s.pc = ConnPC.awaitingTransport
    · rw [if_pos hpc]
      intro _
      obtain ⟨hc, hs, _⟩ := h (by rw [hpc]; intro hcon; cases hcon)
      exact ⟨hc, hs, fun _ => rfl⟩
    · rw [if_neg hpc]
      exact h
  | transportErr msg =>
    show LCInv (if s.pc = ConnPC.awaitingTransport then
      connectCatch s msg else (s, [])).1
    by_cases hpc : s.pc = ConnPC.awaitingTransport
    · rw [if_pos hpc]
      intro hcon
      exact absurd rfl hcon
    · rw [if_neg hpc]
      exact h
  | listToolsOk ts =>
    show LCInv (if s.pc = ConnPC.awaitingListTools then _ else (s, [])).1
    by_cases hpc : s.pc = ConnPC.awaitingListTools
    · rw [if_pos hpc]
      intro hcon
      exact absurd rfl hcon
    · rw [if_neg hpc]
      exact h
  | listToolsErr msg =>
    show LCInv (if s.pc = ConnPC.awaitingListTools then
      connectCatch s msg else (s, [])).1
    by_cases hpc : s.pc = ConnPC.awaitingListTools
    · rw [if_pos hpc]
      intro hcon
      exact absurd rfl hcon
    · rw [if_neg hpc]
      exact h
  | disconnectCall =>
    intro hcon
    obtain ⟨hc, _, ha⟩ := h hcon
    refine ⟨hc, ?_, ha⟩
    intro hx
    cases hx
  | timerFire =>
    show LCInv (match s.reconnectTimer with
      | none => (s, [])
      | some _ => connectEntry { s with reconnectTimer := none }).1
    cases htm : s.reconnectTimer with
    | none => exact h
    | some d =>
      refine connectEntry_LCInv { s with reconnectTimer := none } ?_
      intro hcon
      exact h hcon
  | transportClosed errMsg =>
    by_cases hc : s.status = LocalClientStatus.connected
    · cases ha : s.handlersArmed with
      | false => simpa [lcStep, ha] using h
      | true =>
        cases hd : s.destroyed with
        | true => simpa [lcStep, hd] using h
        | false =>
          intro hcon
          have hpc : s.pc ≠ ConnPC.idle := by
            simpa [lcStep, hc, ha, hd, setStatus, scheduleReconnect]
              using hcon
          exact absurd hc (h hpc).2.1
    · simpa [lcStep, hc] using h

theorem lcRun_LCInv (tr : List LCEvent) :
    ∀ s : LCState, LCInv s → LCInv (lcRun s tr).1 := by
  induction tr with
  | nil =>
    intro s h
    exact h
  | cons e rest ih =>
    intro s h
    exact ih (lcStep s e).1 (lcStep_LCInv s e h)

theorem LCInv_reach (tr : List LCEvent) : LCInv (lcReach tr) :=
  lcRun_LCInv tr LCState.init LCInv_init

theorem destroyed_step (s : LCState) (e : LCEvent)
    (h : s.destroyed = true) (ht : s.reconnectTimer = none) :
    (lcStep s e).1.destroyed = true ∧
      (lcStep s e).1.reconnectTimer = none := by
  cases e with
  | connectCall => simp [lcStep, connectEntry, h, ht]
  | transportOk =>
    by_cases hpc : s.pc = ConnPC.awaitingTransport <;>
      simp [lcStep, hpc, h, ht]
  | transportErr msg =>
    by_cases hpc : s.pc = ConnPC.awaitingTransport <;>
      simp [lcStep, connectCatch, setStatus, hpc, h, ht]
  | listToolsOk ts =>
    by_cases hpc : s.pc = ConnPC.awaitingListTools <;>
      simp [lcStep, setStatus, hpc, h, ht]
  | listToolsErr msg =>
    by_cases hpc : s.pc = ConnPC.awaitingListTools <;>
      simp [lcStep, connectCatch, setStatus, hpc, h, ht]
  | disconnectCall => simp [lcStep, setStatus]
  | timerFire => simp [lcStep, ht, h]
  | transportClosed errMsg => simp [lcStep, h, ht]

theorem destroyed_run (tr : List LCEvent) :
    ∀ s : LCState, s.destroyed = true → s.reconnectTimer = none →
      (lcRun s tr).1.destroyed = true ∧
        (lcRun s tr).1.reconnectTimer = none := by
  induction tr with
  | nil =>
    intro s h ht
    exact ⟨h, ht⟩
  | cons e rest ih =>
    intro s h ht
    obtain ⟨h1, h2⟩ := destroyed_step s e h ht
    exact ih (lcStep s e).1 h1 h2

/-! ## Destroyed clients, reconnect policy, http fallback, callTool -/

/-- Claim C3, counterexample: a `connect()` already in flight when
`disconnect()` sets the destroyed flag continues afterwards; its failure
path moves the status from disconnected to error even though the client
is destroyed. -/
theorem C3_counterexample :
    (lcReach [.connectCall, .disconnectCall]).destroyed = true ∧
    (lcReach [.connectCall, .disconnectCall]).status = .disconnected ∧
    (lcReach [.connectCall, .disconnectCall,
      .transportErr "connection refused"]).destroyed = true ∧
    (lcReach [.connectCall, .disconnectCall,
      .transportErr "connection refused"]).status = .error :=
  ⟨rfl, rfl, rfl, rfl⟩

/-- Claim C3, amended: once the destroyed flag is set, every further
`connect()` call is an exact no-op (no state change, no callbacks), and
no reconnect is ever scheduled again — across any further events the
flag stays set and the reconnect timer stays empty.  A connect attempt
that was already in flight when `disconnect()` ran may, however, still
move the status out of disconnected when it completes or fails. -/
theorem C3_destroyed_terminal (s : LCState) (h : s.destroyed = true) :
    lcStep s .connectCall = (s, []) ∧
    ∀ tr : List LCEvent, s.reconnectTimer = none →
      (lcRun s tr).1.destroyed = true ∧
        (lcRun s tr).1.reconnectTimer = none := by
  constructor
  · simp [lcStep, connectEntry, h]
  · intro tr ht
    exact destroyed_run tr s h ht

/-- Claim C3 witness: the freshly disconnected client ignores a
`connect()` call and never re-arms its timer over a later trace. -/
theorem C3_witness :
    lcStep (lcReach [.disconnectCall]) .connectCall =
      (lcReach [.disconnectCall], []) ∧
    (lcRun (lcReach [.disconnectCall])
      [.timerFire, .transportClosed none]).1.reconnectTimer = none := by
  have h := C3_destroyed_terminal (lcReach [.disconnectCall]) rfl
  exact ⟨h.1, (h.2 [.timerFire, .transportClosed none] rfl).2⟩

/-- Case table for the reconnect delay schedule. -/
theorem reconnectDelayFor_eq (a : Nat) :
    reconnectDelayFor a =
      match a with
      | 0 => 1000
      | 1 => 2000
      | 2 => 5000
      | 3 => 10000
      | _ => 30000 := by
  match a with
  | 0 => rfl
  | 1 => rfl
  | 2 => rfl
  | 3 => rfl
  | n + 4 =>
    show (RECONNECT_DELAYS.get? (min (n + 4) 4)).getD MAX_RECONNECT_DELAY
        = 30000
    rw [show min (n + 4) 4 = 4 by omega]
    rfl

/-- The reconnect delay schedule is monotone in the attempt index. -/
theorem reconnectDelayFor_mono (a b : Nat) (hab : a ≤ b) :
    reconnectDelayFor a ≤ reconnectDelayFor b := by
  rcases b with _ | _ | _ | _ | m <;> rcases a with _ | _ | _ | _ | n <;>
    simp [reconnectDelayFor_eq] <;> omega

/-- The catch block of `connect()` never decreases the attempt counter. -/
theorem connectCatch_attempt (s : LCState) (msg : String) :
    s.reconnectAttempt ≤ (connectCatch s msg).1.reconnectAttempt := by
  unfold connectCatch setStatus scheduleReconnect
  cases hd : s.destroyed <;> simp [hd]

/-- No step other than transport success decreases the attempt
counter (`_reconnectAttempt` is assigned 0 only at transport success). -/
theorem reconnectAttempt_mono_step (s : LCState) (e : LCEvent)
    (h : e ≠ LCEvent.transportOk) :
    s.reconnectAttempt ≤ (lcStep s e).1.reconnectAttempt := by
  cases e with
  | connectCall =>
    show s.reconnectAttempt ≤ (connectEntry s).1.reconnectAttempt
    unfold connectEntry
    cases hg : (s.destroyed || s.connecting) with
    | true =>
      rw [if_pos rfl]
    | false =>
      rw [if_neg Bool.false_ne_true]
      exact Nat.le_refl _
  | transportOk => exact absurd rfl h
  | transportErr msg =>
    show s.reconnectAttempt ≤ (if s.pc = ConnPC.awaitingTransport then
      connectCatch s msg else (s, [])).1.reconnectAttempt
    by_cases hpc : s.pc = ConnPC.awaitingTransport
    · rw [if_pos hpc]
      exact connectCatch_attempt s msg
    · rw [if_neg hpc]
  | listToolsOk ts =>
    show s.reconnectAttempt ≤ (if s.pc = ConnPC.awaitingListTools then
      _ else (s, [])).1.reconnectAttempt
    by_cases hpc : s.pc = ConnPC.awaitingListTools
    · rw [if_pos hpc]
    · rw [if_neg hpc]
  | listToolsErr msg =>
    show s.reconnectAttempt ≤ (if s.pc = ConnPC.awaitingListTools then
      connectCatch s msg else (s, [])).1.reconnectAttempt
    by_cases hpc : s.pc = ConnPC.awaitingListTools
    · rw [if_pos hpc]
      exact connectCatch_attempt s msg
    · rw [if_neg hpc]
  | disconnectCall => exact Nat.le_refl _
  | timerFire =>
    show s.reconnectAttempt ≤ (match s.reconnectTimer with
      | none => (s, [])
      | some _ => connectEntry
          { s with reconnectTimer := none }).1.reconnectAttempt
    cases htm : s.reconnectTimer with
    | none => exact Nat.le_refl _
    | some d =>
      unfold connectEntry
      cases hg : ({ s with reconnectTimer := none }.destroyed ||
          { s with reconnectTimer := none }.connecting) with
      | true =>
        rw [if_pos rfl]
      | false =>
        rw [if_neg Bool.false_ne_true]
        exact Nat.le_refl _
  | transportClosed errMsg =>
    by_cases hc : s.status = LocalClientStatus.connected
    · cases ha : s.handlersArmed with
      | false => simp [lcStep, ha]
      | true =>
        cases hd : s.destroyed with
        | true => simp [lcStep, hd]
        | false =>
          simp [lcStep, hc, ha, hd, setStatus, scheduleReconnect]
    · simp [lcStep, hc]

/-- Across any stretch of events containing no transport success, the
attempt counter never decreases. -/
theorem reconnectAttempt_mono_run (tr : List LCEvent) :
    ∀ s : LCState, (∀ e ∈ tr, e ≠ LCEvent.transportOk) →
      s.reconnectAttempt ≤ (lcRun s tr).1.reconnectAttempt := by
  induction tr with
  | nil =>
    intro s _
    exact Nat.le_refl _
  | cons e rest ih =>
    intro s h
    have h1 := reconnectAttempt_mono_step s e (h e (List.mem_cons_self e rest))
    have h2 := ih (lcStep s e).1 (fun x hx => h x (List.mem_cons_of_mem e hx))
    exact Nat.le_trans h1 h2

/-- Claim C4, counterexample: the attempt counter resets already at
transport success, before tool discovery, so the consecutive connect
failures ⟨transport error, transport error, discovery error after a
transport success⟩ schedule delays 1000 ms, 2000 ms, then 1000 ms —
the third delay is smaller than the second, refuting monotone
non-decreasing delays across consecutive failures. -/
theorem C4_counterexample :
    (lcReach [.connectCall, .transportErr "refused"]).reconnectTimer =
      some 1000 ∧
    (lcReach [.connectCall, .transportErr "refused", .timerFire,
      .transportErr "refused"]).reconnectTimer = some 2000 ∧
    (lcReach [.connectCall, .transportErr "refused", .timerFire,
      .transportErr "refused", .timerFire, .transportOk,
      .listToolsErr "discovery failed"]).reconnectTimer = some 1000 ∧
    (1000 : Nat) < 2000 :=
  ⟨rfl, rfl, rfl, by omega⟩

/-- Claim C4, amended: each reconnect scheduling arms the timer with
delay `RECONNECT_DELAYS[min(reconnectAttempt, 4)]` and then increments
the counter, and the delay never exceeds 30000 ms; across consecutive
failures with no intervening transport success the scheduled delay is
monotone non-decreasing (no step other than transport success decreases
the counter); but the counter resets to 0 already at transport success,
before tool discovery, so a discovery failure after a transport success
restarts the schedule at its first entry; the step completing a
successful connect ends with the counter at 0. -/
theorem C4_reconnect_policy_amended :
    (∀ s : LCState, s.destroyed = false →
      (scheduleReconnect s).reconnectTimer =
        some (reconnectDelayFor s.reconnectAttempt) ∧
      (scheduleReconnect s).reconnectAttempt = s.reconnectAttempt + 1) ∧
    (∀ a : Nat, reconnectDelayFor a ≤ 30000) ∧
    (∀ (s : LCState) (tr : List LCEvent),
      (∀ e ∈ tr, e ≠ LCEvent.transportOk) →
      reconnectDelayFor s.reconnectAttempt ≤
        reconnectDelayFor (lcRun s tr).1.reconnectAttempt) ∧
    (∀ s : LCState, s.pc = ConnPC.awaitingTransport →
      (lcStep s .transportOk).1.reconnectAttempt = 0) ∧
    (∀ (tr : List LCEvent) (ts : List Tool),
      (lcReach tr).pc = ConnPC.awaitingListTools →
      (lcStep (lcReach tr) (.listToolsOk ts)).1.status = .connected ∧
      (lcStep (lcReach tr) (.listToolsOk ts)).1.reconnectAttempt = 0) := by
  refine ⟨?_, ?_, ?_, ?_, ?_⟩
  · intro s h
    constructor <;> simp [scheduleReconnect, h]
  · intro a
    rcases a with _ | _ | _ | _ | n <;> simp [reconnectDelayFor_eq]
  · intro s tr h
    exact reconnectDelayFor_mono _ _ (reconnectAttempt_mono_run tr s h)
  · intro s hpc
    simp [lcStep, hpc]
  · intro tr ts hpc
    have hinv := LCInv_reach tr
    have h0 : (lcReach tr).reconnectAttempt = 0 :=
      (hinv (by rw [hpc]; intro hcon; cases hcon)).2.2 hpc
    constructor
    · simp [lcStep, hpc, setStatus]
    · simp [lcStep, hpc, setStatus, h0]

/-- Claim C4 witness: the first delay is 1000 ms; along a concrete
stretch with no transport success the delay does not decrease; the
counter resets at a concrete transport success and a concrete
successful connect ends with the counter at 0. -/
theorem C4_witness :
    (scheduleReconnect LCState.init).reconnectTimer = some 1000 ∧
    reconnectDelayFor
        (lcReach [.connectCall, .transportErr "x"]).reconnectAttempt ≤
      reconnectDelayFor
        (lcRun (lcReach [.connectCall, .transportErr "x"])
          [.timerFire, .transportErr "x"]).1.reconnectAttempt ∧
    (lcStep (lcReach [.connectCall]) .transportOk).1.reconnectAttempt
      = 0 ∧
    (lcStep (lcReach [.connectCall, .transportOk])
      (.listToolsOk [])).1.reconnectAttempt = 0 := by
  refine ⟨?_, ?_, ?_, ?_⟩
  · exact (C4_reconnect_policy_amended.1 LCState.init rfl).1
  · refine C4_reconnect_policy_amended.2.2.1
      (lcReach [.connectCall, .transportErr "x"])
      [.timerFire, .transportErr "x"] ?_
    intro e he hcon
    subst hcon
    simp at he
  · exact C4_reconnect_policy_amended.2.2.2.1 (lcReach [.connectCall]) rfl
  · exact (C4_reconnect_policy_amended.2.2.2.2
      [.connectCall, .transportOk] [] rfl).2

/-- Claim C5: on an http-stream connect the streaming-POST transport is
attempted first and used when it succeeds; on its failure that transport
is explicitly closed and a server-sent-events transport against the
same url and headers is attempted; a successful fallback returns the
sse transport (and the subsequent transport-success and tool-discovery
steps leave the connection connected), and a double failure propagates
the second error, not the first. -/
theorem C5_http_fallback (id u : String) (hs : List (String × String))
    (e1 e2 : String) (s : LCState) (ts : List Tool) :
    (connectHttp id (some u) hs none none).result =
      .ok { kind := .streamable, url := u, headers := hs } ∧
    (connectHttp id (some u) hs (some e1) none).result =
      .ok { kind := .sse, url := u, headers := hs } ∧
    (connectHttp id (some u) hs (some e1) none).closed =
      [{ kind := .streamable, url := u, headers := hs }] ∧
    (connectHttp id (some u) hs (some e1) (some e2)).result = .error e2 ∧
    (s.pc = ConnPC.awaitingTransport →
      (lcRun s [.transportOk, .listToolsOk ts]).1.status = .connected) := by
  refine ⟨rfl, rfl, rfl, rfl, ?_⟩
  intro hpc
  simp [lcRun, lcStep, hpc, setStatus]

/-- Claim C5 witness: a concrete failed POST attempt falling back to a
successful sse attempt, then completing the connect. -/
theorem C5_witness :
    (connectHttp "e" (some "u") [] (some "post failed") none).result =
      .ok { kind := .sse, url := "u", headers := [] } ∧
    (lcRun (lcReach [.connectCall])
      [.transportOk, .listToolsOk []]).1.status = .connected := by
  have h := C5_http_fallback "e" "u" [] "post failed" "x"
    (lcReach [.connectCall]) []
  exact ⟨h.2.1, h.2.2.2.2 rfl⟩

/-- Claim C6, counterexample: after an unexpected transport closure the
status is error, yet `callTool` does not fail immediately — the stale
client handle is still present and the downstream call is issued. -/
theorem C6_counterexample :
    (lcReach [.connectCall, .transportOk, .listToolsOk [],
      .transportClosed none]).status = .error ∧
    callTool "a" (lcReach [.connectCall, .transportOk, .listToolsOk [],
      .transportClosed none]) (.ok .null) = .ok .null :=
  ⟨rfl, rfl⟩

/-- Claim C6, amended: `callTool` fails immediately (with the
not-connected error, without queueing or waiting) exactly when the
internal client handle is absent; the status is not consulted.  An
unexpected transport closure moves the status to error but retains the
handle, so in that state the downstream call is still issued. -/
theorem C6_callTool_guard (id : String) (s : LCState)
    (d : Except String Value) :
    (s.hasClient = false →
      callTool id s d =
        .error ("LocalClient for endpoint " ++ id ++
          " is not connected")) ∧
    (s.hasClient = true → callTool id s d = d) ∧
    (s.status = .connected → s.handlersArmed = true →
      s.destroyed = false →
      (lcStep s (.transportClosed none)).1.hasClient = s.hasClient ∧
      (lcStep s (.transportClosed none)).1.status = .error) := by
  refine ⟨fun h => by simp [callTool, h], fun h => by simp [callTool, h],
    fun hc ha hd => ?_⟩
  constructor <;>
    simp [lcStep, hc, ha, hd, setStatus, scheduleReconnect]

/-- Claim C6 witness: in the concrete post-closure error state the call
is issued and its downstream result is returned unchanged. -/
theorem C6_witness :
    callTool "a" (lcReach [.connectCall, .transportOk, .listToolsOk [],
      .transportClosed none]) (.ok (.num 7)) = .ok (.num 7) :=
  (C6_callTool_guard "a" (lcReach [.connectCall, .transportOk,
    .listToolsOk [], .transportClosed none]) (.ok (.num 7))).2.1 rfl

end McpCentralAgent
